import Mathlib

/-!
Verification of the gores-mapgen repository's two Python scripts against
their natural-language specification.

* `scripts/update_gen_config.py` — a one-shot JSON config migration tool.
  Python dicts are modelled as ordered association lists with unique keys
  (`Dict`), JSON values as the inductive `JValue`, Python numbers as exact
  rationals, and fallible Python operations as `Except PyError`.
  Python-specific semantics modelled faithfully:
    - `d.get(k, default)`, `d[k] = v` (update in place keeps key position,
      fresh key appends), `list(d.items())`, `dict(items)` (key keeps its
      first-occurrence position, the last occurrence's value wins),
      `list.insert(pos, x)` (clamping at the end);
    - `sum(xs)` (left-to-right, `TypeError` on a non-number),
      `x / y` (`ZeroDivisionError` on zero divisor),
      iteration (`TypeError` on non-iterables, dict iteration yields keys),
      subscripting `x[i]` (`IndexError` past the end, `TypeError` on
      non-subscriptables, `KeyError` for an integer key on a dict);
    - `int(x)` truncates toward zero; `range(n)` is empty for `n <= 0`;
      `//` is floor division.
  Object identity / in-place mutation is modelled by a small heap
  (`List Dict` indexed by allocation order) for the claim that
  `convert_to_1_0` does not mutate its input; the file system is modelled
  as a map from paths to (already parsed) file contents, with POSIX
  `os.rename` semantics (an existing destination is replaced silently).

* `testing_formulas.py` — the geometric formula scratchpad, embedded over
  exact rationals.
-/

/-- A JSON value as handled by the Python scripts. Numbers are exact
rationals (Python ints/floats under exact arithmetic). -/
inductive JValue where
  | null : JValue
  | bool (b : Bool) : JValue
  | num (q : ℚ) : JValue
  | str (s : String) : JValue
  | arr (items : List JValue) : JValue
  | obj (entries : List (String × JValue)) : JValue

/-- A Python dict: an ordered association list. A real Python dict always
has pairwise-distinct keys; theorems that need this take it as the
hypothesis `(keysOf d).Nodup`. -/
abbrev Dict := List (String × JValue)

/-- The keys of a dict, in iteration order. -/
def keysOf (d : Dict) : List String := d.map Prod.fst

/-- First-occurrence lookup (how Python finds a key in a dict that, as with
every real dict, has unique keys). -/
def lookup : Dict → String → Option JValue
  | [], _ => none
  | p :: rest, k => if p.1 = k then some p.2 else lookup rest k

/-- Python `d.get(k, default)`. -/
def dictGet (d : Dict) (k : String) (default : JValue) : JValue :=
  match lookup d k with
  | some v => v
  | none => default

/-- Replace the value of every entry whose key is `k`, keeping positions. -/
def setValue (d : Dict) (k : String) (v : JValue) : Dict :=
  d.map (fun p => if p.1 = k then (k, v) else p)

/-- Python `d[k] = v`: an existing key keeps its position and gets the new
value; a fresh key is appended at the end. -/
def dictInsert (d : Dict) (k : String) (v : JValue) : Dict :=
  if k ∈ keysOf d then setValue d k v else d ++ [(k, v)]

/-- Python `dict(items)`: items are inserted left to right, so a duplicated
key sits at its first-occurrence position holding its last value. -/
def dictOfItems (items : List (String × JValue)) : Dict :=
  items.foldl (fun d p => dictInsert d p.1 p.2) []

/-- Python `list.insert(pos, x)` (for `0 <= pos`, clamping past the end). -/
def pyListInsert (l : List (String × JValue)) (pos : Nat) (x : String × JValue) :
    List (String × JValue) :=
  l.take pos ++ x :: l.drop pos

/-- Function `insert_at_position` from `scripts/update_gen_config.py`:
`items = list(d.items()); items.insert(position, (key, value)); return dict(items)`. -/
def insert_at_position (d : Dict) (key : String) (value : JValue) (position : Nat) : Dict :=
  dictOfItems (pyListInsert d position (key, value))

/-- The Python exceptions the modelled code can raise. -/
inductive PyError where
  | typeError : PyError
  | indexError : PyError
  | keyError : PyError
  | zeroDivisionError : PyError
  | fileNotFoundError : PyError
deriving DecidableEq

/-- The numeric value of a JSON value, if it has one (Python booleans are
numbers: `True == 1`, `False == 0`). -/
def pyNum? : JValue → Option ℚ
  | .num q => some q
  | .bool b => some (if b then 1 else 0)
  | _ => none

/-- Python `sum(xs)`: left-to-right, `TypeError` at the first non-number. -/
def pySum : List JValue → Except PyError ℚ
  | [] => .ok 0
  | w :: ws =>
    match pyNum? w with
    | none => .error .typeError
    | some q =>
      match pySum ws with
      | .error e => .error e
      | .ok s => .ok (q + s)

/-- Python `a / b` on JSON values: `TypeError` on non-numeric operands,
`ZeroDivisionError` on a zero divisor. -/
def pyDiv (a b : JValue) : Except PyError ℚ :=
  match pyNum? a, pyNum? b with
  | some x, some y => if y = 0 then .error .zeroDivisionError else .ok (x / y)
  | _, _ => .error .typeError

/-- Python iteration over a JSON value: lists yield their items, strings
their characters, dicts their keys; anything else raises `TypeError`. -/
def pyIter : JValue → Except PyError (List JValue)
  | .arr xs => .ok xs
  | .str s => .ok (s.data.map (fun c => .str (String.mk [c])))
  | .obj entries => .ok (entries.map (fun p => .str p.1))
  | _ => .error .typeError

/-- Python `v[i]` for a nonnegative integer `i`. -/
def pySubscript (v : JValue) (i : Nat) : Except PyError JValue :=
  match v with
  | .arr xs =>
    match xs[i]? with
    | some x => .ok x
    | none => .error .indexError
  | .str s =>
    match s.data[i]? with
    | some c => .ok (.str (String.mk [c]))
    | none => .error .indexError
  | .obj _ => .error .keyError
  | _ => .error .typeError

/-- A Python list comprehension `[f x for x in xs]`: left to right, stopping
at the first exception. -/
def mapE {α β : Type} (f : α → Except PyError β) : List α → Except PyError (List β)
  | [] => .ok []
  | x :: xs =>
    match f x with
    | .error e => .error e
    | .ok y =>
      match mapE f xs with
      | .error e => .error e
      | .ok ys => .ok (y :: ys)

/-- The body `w / sum(shift_weights)` of the normalization comprehension
(the sum is re-evaluated for each element, as in the source). -/
def normalizeStep (sws : List JValue) (w : JValue) : Except PyError ℚ :=
  match pySum sws with
  | .error e => .error e
  | .ok s => pyDiv w (.num s)

/-- Line 26 of `update_gen_config.py`:
`shift_weights = [w / sum(shift_weights) for w in shift_weights]`. -/
def pyNormalize (sws : List JValue) : Except PyError (List ℚ) :=
  mapE (normalizeStep sws) sws

/-- Exception propagation: run `x`; on success feed the value to the rest of
the computation, on an exception abort with it. -/
def bindE {α β : Type} (x : Except PyError α) (f : α → Except PyError β) :
    Except PyError β :=
  match x with
  | .error e => .error e
  | .ok a => f a

/-- The migrated dict before the final `version` splice: the shallow copy
with the three probability fields replaced (lines 28-40 of the source). -/
def migratedBody (old_json : Dict) (inner_values inner_probs outer_values
    outer_probs : List JValue) (shift_norm : List ℚ) : Dict :=
  dictInsert (dictInsert (dictInsert old_json
    "inner_size_probs" (.obj [("values", .arr inner_values), ("probs", .arr inner_probs)]))
    "outer_margin_probs" (.obj [("values", .arr outer_values), ("probs", .arr outer_probs)]))
    "shift_weights" (.obj [("values", .null), ("probs", .arr (shift_norm.map JValue.num))])

/-- Function `convert_to_1_0` from `scripts/update_gen_config.py`, step for step:
read the three fields with default `[]`, normalize `shift_weights`
(first possible failure, at line 26), shallow-copy the input, replace the
three fields (splitting the two pair lists into parallel `values`/`probs`
lists, subscript failures in source order), and splice `"version": "1.0"`
in at position 2. -/
def convert_to_1_0 (old_json : Dict) : Except PyError Dict :=
  bindE (pyIter (dictGet old_json "shift_weights" (.arr []))) (fun sws =>
  bindE (pyNormalize sws) (fun shift_norm =>
  bindE (pyIter (dictGet old_json "inner_size_probs" (.arr []))) (fun inner_items =>
  bindE (mapE (fun item => pySubscript item 0) inner_items) (fun inner_values =>
  bindE (mapE (fun item => pySubscript item 1) inner_items) (fun inner_probs =>
  bindE (pyIter (dictGet old_json "outer_margin_probs" (.arr []))) (fun outer_items =>
  bindE (mapE (fun item => pySubscript item 0) outer_items) (fun outer_values =>
  bindE (mapE (fun item => pySubscript item 1) outer_items) (fun outer_probs =>
  .ok (insert_at_position
    (migratedBody old_json inner_values inner_probs outer_values outer_probs shift_norm)
    "version" (.str "1.0") 2)))))))))

/-! ### Heap model for object identity (claim C7) -/

/-- A tiny Python heap: dict objects indexed by allocation order. -/
abbrev Heap := List Dict

/-- Dereference a heap cell. -/
def heapGet (h : Heap) (r : Nat) : Dict := h.getD r []

/-- In-place mutation of a heap cell. -/
def heapSet (h : Heap) (r : Nat) (d : Dict) : Heap := h.set r d

/-- Variant of `convert_to_1_0` with object identity made explicit: the input dict
lives at heap cell `r`; `old_json.copy()` allocates a fresh cell; each
`new_json[...] = ...` mutates that fresh cell in place;
`insert_at_position` builds another fresh dict (`dict(items)`), which is
allocated and returned. On success the returned reference points at the
migrated dict. -/
def convert_to_1_0_heap (h : Heap) (r : Nat) : Except PyError (Heap × Nat) :=
  bindE (pyIter (dictGet (heapGet h r) "shift_weights" (.arr []))) (fun sws =>
  bindE (pyNormalize sws) (fun shift_norm =>
  bindE (pyIter (dictGet (heapGet h r) "inner_size_probs" (.arr []))) (fun inner_items =>
  bindE (mapE (fun item => pySubscript item 0) inner_items) (fun inner_values =>
  bindE (mapE (fun item => pySubscript item 1) inner_items) (fun inner_probs =>
  bindE (pyIter (dictGet (heapGet h r) "outer_margin_probs" (.arr []))) (fun outer_items =>
  bindE (mapE (fun item => pySubscript item 0) outer_items) (fun outer_values =>
  bindE (mapE (fun item => pySubscript item 1) outer_items) (fun outer_probs =>
  let nr := h.length
  let h1 := h ++ [heapGet h r]
  let h2 := heapSet h1 nr (dictInsert (heapGet h1 nr)
    "inner_size_probs" (.obj [("values", .arr inner_values), ("probs", .arr inner_probs)]))
  let h3 := heapSet h2 nr (dictInsert (heapGet h2 nr)
    "outer_margin_probs" (.obj [("values", .arr outer_values), ("probs", .arr outer_probs)]))
  let h4 := heapSet h3 nr (dictInsert (heapGet h3 nr)
    "shift_weights" (.obj [("values", .null), ("probs", .arr (shift_norm.map JValue.num))]))
  let d := insert_at_position (heapGet h4 nr) "version" (.str "1.0") 2
  .ok (h4 ++ [d], h4.length)))))))))

/-! ### File-system model (claim C4) -/

/-- The file system: a map from paths to already-parsed file contents
(JSON serialization is abstracted away). -/
abbrev FileSys := Dict

/-- Python `os.rename(src, dst)` with POSIX (Linux) semantics: missing source is
an error; an existing destination is replaced **silently**. -/
def os_rename (fs : FileSys) (src dst : String) : Except PyError FileSys :=
  match lookup fs src with
  | none => .error .fileNotFoundError
  | some content => .ok (dictInsert (fs.filter (fun q => q.1 ≠ src)) dst content)

/-- The per-path body of `main` in `scripts/update_gen_config.py`, in source
order: read and parse `path`, run `convert_to_1_0`, rename `path` to
`path + ".bak"`, write the migrated object to `path`. -/
def migrate_file (fs : FileSys) (path : String) : Except PyError FileSys :=
  match lookup fs path with
  | none => .error .fileNotFoundError
  | some content =>
    match content with
    | .obj old_json =>
      match convert_to_1_0 old_json with
      | .error e => .error e
      | .ok new_json =>
        match os_rename fs path (path ++ ".bak") with
        | .error e => .error e
        | .ok fs2 => .ok (dictInsert fs2 path (.obj new_json))
    | _ => .error .typeError

/-! ### `testing_formulas.py` -/

/-- Python `int(q)`: truncation toward zero. -/
def pyTrunc (q : ℚ) : ℤ := if q < 0 then ⌈q⌉ else ⌊q⌋

/-- Python `range(n)` for an integer bound (empty when `n <= 0`). -/
def pyRangeZ (n : ℤ) : List ℤ := (List.range n.toNat).map Int.ofNat

/-- Function `get_max_radii` from `testing_formulas.py`:
`center = (size-1)/2; max_corner = int((size/2) - 1);`
`[center**2 + (center - d)**2 for d in range(max_corner+1)]`. -/
def get_max_radii (size : ℕ) : List ℚ :=
  (pyRangeZ (pyTrunc ((size : ℚ) / 2 - 1) + 1)).map
    (fun (d : ℤ) => (((size : ℚ) - 1) / 2) ^ 2 + (((size : ℚ) - 1) / 2 - (d : ℚ)) ^ 2)

/-- Function `get_dist` from `testing_formulas.py`. -/
def get_dist (size : ℕ) (corner_depth : ℤ) : ℚ :=
  (((size : ℚ) - 1) / 2) ^ 2 + (((size : ℚ) - 1) / 2 - (corner_depth : ℚ)) ^ 2

/-- Function `get_max_radii_simpl` from `testing_formulas.py`:
`[get_dist(size, d) for d in range(size // 2)]`. -/
def get_max_radii_simpl (size : ℕ) : List ℚ :=
  (List.range (size / 2)).map (fun (d : ℕ) => get_dist size (d : ℤ))

/-- Function `totally_cursed` from `testing_formulas.py`. -/
def totally_cursed (size : ℕ) : List ℚ :=
  (List.range (size / 2)).map
    (fun (d : ℕ) => (((size : ℚ) - 1) / 2) ^ 2 + (((size : ℚ) - 1) / 2 - (d : ℚ)) ^ 2)

/-- Function `wtf_is_going_on` from `testing_formulas.py`. -/
def wtf_is_going_on (s : ℚ) (d : ℤ) : ℚ :=
  ((s - 1) ^ 2 / 2) - ((s - 1) * (d : ℚ)) + (d : ℚ) ^ 2

/-- Function `even_more_cursed` from `testing_formulas.py`:
`[wtf_is_going_on(size, d) for d in range(size // 2)]`. -/
def even_more_cursed (size : ℕ) : List ℚ :=
  (List.range (size / 2)).map (fun (d : ℕ) => wtf_is_going_on (size : ℚ) (d : ℤ))

/-! ### Basic dict lemmas -/

theorem keysOf_nil : keysOf [] = [] := rfl

theorem keysOf_cons (p : String × JValue) (d : Dict) :
    keysOf (p :: d) = p.1 :: keysOf d := rfl

theorem keysOf_append (A B : Dict) : keysOf (A ++ B) = keysOf A ++ keysOf B :=
  List.map_append _ _ _

theorem lookup_eq_none_of_not_mem {d : Dict} {k : String} (h : k ∉ keysOf d) :
    lookup d k = none := by
  induction d with
  | nil => rfl
  | cons p rest ih =>
    rw [keysOf_cons, List.mem_cons] at h
    push_neg at h
    rw [lookup, if_neg (fun hc => h.1 hc.symm), ih h.2]

theorem lookup_isSome_of_mem {d : Dict} {k : String} (h : k ∈ keysOf d) :
    ∃ v, lookup d k = some v := by
  induction d with
  | nil => simp [keysOf] at h
  | cons p rest ih =>
    rw [keysOf_cons, List.mem_cons] at h
    rw [lookup]
    rcases eq_or_ne p.1 k with hk | hk
    · exact ⟨p.2, if_pos hk⟩
    · rw [if_neg hk]
      exact ih (h.resolve_left (fun hh => hk hh.symm))

theorem keysOf_setValue (d : Dict) (k : String) (v : JValue) :
    keysOf (setValue d k v) = keysOf d := by
  induction d with
  | nil => rfl
  | cons p rest ih =>
    rw [setValue, List.map_cons, ← setValue, keysOf_cons, keysOf_cons, ih]
    rcases eq_or_ne p.1 k with hk | hk
    · rw [if_pos hk, hk]
    · rw [if_neg hk]

theorem setValue_of_not_mem {d : Dict} {k : String} (v : JValue) (h : k ∉ keysOf d) :
    setValue d k v = d := by
  induction d with
  | nil => rfl
  | cons p rest ih =>
    rw [keysOf_cons, List.mem_cons] at h
    push_neg at h
    rw [setValue, List.map_cons, ← setValue,
      if_neg (fun hc => h.1 hc.symm), ih h.2]

theorem setValue_append (A B : Dict) (k : String) (v : JValue) :
    setValue (A ++ B) k v = setValue A k v ++ setValue B k v :=
  List.map_append _ _ _

theorem keysOf_dictInsert (d : Dict) (k : String) (v : JValue) :
    keysOf (dictInsert d k v) =
      keysOf d ++ (if k ∈ keysOf d then [] else [k]) := by
  rw [dictInsert]
  rcases Decidable.em (k ∈ keysOf d) with h | h
  · rw [if_pos h, if_pos h, keysOf_setValue, List.append_nil]
  · rw [if_neg h, if_neg h, keysOf_append, keysOf_cons, keysOf_nil]

theorem mem_keys_dictInsert_self (d : Dict) (k : String) (v : JValue) :
    k ∈ keysOf (dictInsert d k v) := by
  rw [keysOf_dictInsert]
  rcases Decidable.em (k ∈ keysOf d) with h | h
  · exact List.mem_append_left _ h
  · rw [if_neg h]
    exact List.mem_append_right _ (List.mem_singleton.mpr rfl)

theorem mem_keys_dictInsert_of_mem {d : Dict} {a : String} (k : String) (v : JValue)
    (h : a ∈ keysOf d) : a ∈ keysOf (dictInsert d k v) := by
  rw [keysOf_dictInsert]
  exact List.mem_append_left _ h

theorem nodup_keys_dictInsert {d : Dict} (k : String) (v : JValue)
    (h : (keysOf d).Nodup) : (keysOf (dictInsert d k v)).Nodup := by
  rw [keysOf_dictInsert]
  rcases Decidable.em (k ∈ keysOf d) with hm | hm
  · rw [if_pos hm, List.append_nil]; exact h
  · rw [if_neg hm]
    exact List.Nodup.append h (List.nodup_singleton k)
      (List.disjoint_singleton.mpr hm)

theorem lookup_append (A B : Dict) (k : String) :
    lookup (A ++ B) k =
      match lookup A k with
      | some v => some v
      | none => lookup B k := by
  induction A with
  | nil => rw [List.nil_append]; rfl
  | cons p rest ih =>
    rw [List.cons_append, lookup, lookup]
    rcases eq_or_ne p.1 k with hk | hk
    · rw [if_pos hk, if_pos hk]
    · rw [if_neg hk, if_neg hk, ih]

theorem lookup_setValue_self {d : Dict} {k : String} (v : JValue)
    (h : k ∈ keysOf d) : lookup (setValue d k v) k = some v := by
  induction d with
  | nil => simp [keysOf] at h
  | cons p rest ih =>
    rw [keysOf_cons, List.mem_cons] at h
    rw [setValue, List.map_cons, ← setValue]
    rcases eq_or_ne p.1 k with hk | hk
    · rw [if_pos hk]
      show lookup ((k, v) :: setValue rest k v) k = some v
      rw [lookup, if_pos rfl]
    · rw [if_neg hk]
      show lookup (p :: setValue rest k v) k = some v
      rw [lookup, if_neg hk]
      exact ih (h.resolve_left (fun hh => hk hh.symm))

theorem lookup_dictInsert_self (d : Dict) (k : String) (v : JValue) :
    lookup (dictInsert d k v) k = some v := by
  rw [dictInsert]
  rcases Decidable.em (k ∈ keysOf d) with h | h
  · rw [if_pos h]
    exact lookup_setValue_self v h
  · rw [if_neg h, lookup_append, lookup_eq_none_of_not_mem h]
    show lookup ((k, v) :: []) k = some v
    rw [lookup, if_pos rfl]

theorem lookup_setValue_ne (d : Dict) {k k' : String} (v : JValue) (h : k' ≠ k) :
    lookup (setValue d k v) k' = lookup d k' := by
  induction d with
  | nil => rfl
  | cons p rest ih =>
    rw [setValue, List.map_cons, ← setValue]
    rcases eq_or_ne p.1 k with hk | hk
    · rw [if_pos hk]
      show lookup ((k, v) :: setValue rest k v) k' = lookup (p :: rest) k'
      rw [lookup, lookup, if_neg (fun hc => h hc.symm),
        if_neg (fun hc => h (hk ▸ hc).symm), ih]
    · rw [if_neg hk]
      show lookup (p :: setValue rest k v) k' = lookup (p :: rest) k'
      rw [lookup, lookup]
      rcases eq_or_ne p.1 k' with hk' | hk'
      · rw [if_pos hk', if_pos hk']
      · rw [if_neg hk', if_neg hk', ih]

theorem lookup_dictInsert_ne (d : Dict) {k k' : String} (v : JValue) (h : k' ≠ k) :
    lookup (dictInsert d k v) k' = lookup d k' := by
  rw [dictInsert]
  rcases Decidable.em (k ∈ keysOf d) with hm | hm
  · rw [if_pos hm, lookup_setValue_ne _ _ h]
  · rw [if_neg hm, lookup_append]
    rcases hres : lookup d k' with _ | w
    · show lookup ((k, v) :: []) k' = none
      rw [lookup, if_neg (fun hc => h hc.symm)]
      rfl
    · rfl

theorem getElem?_dictInsert_ne {d : Dict} {i : Nat} {k0 k : String} {w : JValue}
    (hd : d[i]? = some (k0, w)) (v : JValue) (hne : k0 ≠ k) :
    (dictInsert d k v)[i]? = some (k0, w) := by
  rw [dictInsert]
  rcases Decidable.em (k ∈ keysOf d) with hm | hm
  · rw [if_pos hm, setValue, List.getElem?_map, hd, Option.map_some', if_neg hne]
  · have hlt : i < d.length := by
      rcases List.getElem?_eq_some.mp hd with ⟨hl, _⟩
      exact hl
    rw [if_neg hm, List.getElem?_append, if_pos hlt]
    exact hd

theorem length_le_dictInsert (d : Dict) (k : String) (v : JValue) :
    d.length ≤ (dictInsert d k v).length := by
  rw [dictInsert]
  rcases Decidable.em (k ∈ keysOf d) with hm | hm
  · rw [if_pos hm, setValue, List.length_map]
  · rw [if_neg hm, List.length_append]
    exact Nat.le_add_right _ _

theorem length_le_length_dictInsert (d : Dict) (k : String) (v : JValue) :
    d.length ≤ (dictInsert d k v).length := by
  rw [dictInsert]
  rcases Decidable.em (k ∈ keysOf d) with hm | hm
  · rw [if_pos hm, setValue, List.length_map]
  · rw [if_neg hm, List.length_append]
    exact Nat.le_add_right _ _

/-! ### `dict(items)` semantics: first-occurrence position, last value -/

/-- Last-occurrence lookup in an item list: the value `dict(items)` binds a
key to. -/
def lastLookup : List (String × JValue) → String → Option JValue
  | [], _ => none
  | p :: rest, k =>
    match lastLookup rest k with
    | some v => some v
    | none => if p.1 = k then some p.2 else none

theorem lastLookup_eq_none_of_not_mem {items : List (String × JValue)} {k : String}
    (h : k ∉ keysOf items) : lastLookup items k = none := by
  induction items with
  | nil => rfl
  | cons p rest ih =>
    rw [keysOf_cons, List.mem_cons] at h
    push_neg at h
    rw [lastLookup, ih h.2, if_neg (fun hc => h.1 hc.symm)]

theorem lastLookup_cons_ne {p : String × JValue} (rest : List (String × JValue))
    {k : String} (h : p.1 ≠ k) : lastLookup (p :: rest) k = lastLookup rest k := by
  rw [lastLookup]
  rcases hres : lastLookup rest k with _ | v
  · rw [if_neg h]
  · rfl

theorem lastLookup_append (A B : List (String × JValue)) (k : String) :
    lastLookup (A ++ B) k =
      match lastLookup B k with
      | some v => some v
      | none => lastLookup A k := by
  induction A with
  | nil =>
    rw [List.nil_append]
    rcases hres : lastLookup B k with _ | v <;> rfl
  | cons p rest ih =>
    rw [List.cons_append, lastLookup, lastLookup, ih]
    rcases hres : lastLookup B k with _ | v
    · rfl
    · rfl

theorem lastLookup_eq_lookup {d : Dict} (k : String) (hnd : (keysOf d).Nodup) :
    lastLookup d k = lookup d k := by
  induction d with
  | nil => rfl
  | cons p rest ih =>
    rw [keysOf_cons, List.nodup_cons] at hnd
    rw [lastLookup, lookup]
    rcases eq_or_ne p.1 k with hk | hk
    · rw [lastLookup_eq_none_of_not_mem (hk ▸ hnd.1), if_pos hk, if_pos hk]
    · rw [if_neg hk, if_neg hk, ih hnd.2]
      rcases hres : lookup rest k with _ | v <;> rfl

theorem lookup_foldl_dictInsert (items : List (String × JValue)) :
    ∀ (acc : Dict) (k : String),
      lookup (items.foldl (fun d p => dictInsert d p.1 p.2) acc) k =
        match lastLookup items k with
        | some v => some v
        | none => lookup acc k := by
  induction items with
  | nil => intro acc k; rfl
  | cons b rest ih =>
    intro acc k
    rw [List.foldl_cons, ih, lastLookup]
    rcases hres : lastLookup rest k with _ | v
    · rcases eq_or_ne b.1 k with hk | hk
      · subst hk
        simp [lookup_dictInsert_self]
      · simp [if_neg hk, lookup_dictInsert_ne acc b.2 (fun hc => hk hc.symm)]
    · rfl

theorem lookup_dictOfItems (items : List (String × JValue)) (k : String) :
    lookup (dictOfItems items) k = lastLookup items k := by
  rw [dictOfItems, lookup_foldl_dictInsert]
  rcases hres : lastLookup items k with _ | v <;> rfl

theorem foldl_dictInsert_of_nodup (B : List (String × JValue)) :
    ∀ (acc : Dict), (keysOf (acc ++ B)).Nodup →
      B.foldl (fun d p => dictInsert d p.1 p.2) acc = acc ++ B := by
  induction B with
  | nil => intro acc _; rw [List.foldl_nil, List.append_nil]
  | cons b rest ih =>
    intro acc h
    have hfresh : b.1 ∉ keysOf acc := by
      rw [keysOf_append, List.nodup_append] at h
      intro hmem
      exact h.2.2 hmem (by rw [keysOf_cons]; exact List.mem_cons_self _ _)
    have hstep : dictInsert acc b.1 b.2 = acc ++ [b] := by
      rw [dictInsert, if_neg hfresh]
    have h2 : (keysOf ((acc ++ [b]) ++ rest)).Nodup := by
      rw [List.append_assoc, List.singleton_append]
      exact h
    rw [List.foldl_cons, hstep, ih _ h2, List.append_assoc, List.singleton_append]

theorem dictOfItems_of_nodup {d : List (String × JValue)}
    (h : (keysOf d).Nodup) : dictOfItems d = d := by
  rw [dictOfItems, foldl_dictInsert_of_nodup d [] (by rw [List.nil_append]; exact h),
    List.nil_append]

theorem lookup_append_first_hit {A : Dict} {k : String} (v : JValue) (B : Dict)
    (h : k ∉ keysOf A) : lookup (A ++ (k, v) :: B) k = some v := by
  rw [lookup_append, lookup_eq_none_of_not_mem h]
  show lookup ((k, v) :: B) k = some v
  rw [lookup, if_pos rfl]

theorem lookup_insert_at_position_ne (d : Dict) {key : String} (value : JValue)
    (position : Nat) {k : String} (hnd : (keysOf d).Nodup) (hk : k ≠ key) :
    lookup (insert_at_position d key value position) k = lookup d k := by
  rw [insert_at_position, pyListInsert, lookup_dictOfItems, lastLookup_append,
    lastLookup_cons_ne _ (fun hc => hk hc.symm)]
  have hfull : lastLookup (d.take position ++ d.drop position) k = lookup d k := by
    rw [List.take_append_drop]
    exact lastLookup_eq_lookup k hnd
  rw [lastLookup_append] at hfull
  exact hfull

/-! ### Comprehension and sum helpers -/

/-- Whether a JSON value is a 2-element list (an exact `(value, prob)` pair). -/
def isPair2 : JValue → Bool
  | .arr [_, _] => true
  | _ => false

/-- First element of a pair entry (junk `null` off the intended domain). -/
def pFst : JValue → JValue
  | .arr (a :: _) => a
  | _ => .null

/-- Second element of a pair entry (junk `null` off the intended domain). -/
def pSnd : JValue → JValue
  | .arr (_ :: b :: _) => b
  | _ => .null

/-- The numeric value of a JSON value (junk `0` off the intended domain). -/
def pyNumD (v : JValue) : ℚ := (pyNum? v).getD 0

theorem mapE_ok_forall {α β : Type} {f : α → Except PyError β} :
    ∀ {l : List α} {r : List β}, mapE f l = .ok r → ∀ x ∈ l, ∃ y, f x = .ok y := by
  intro l
  induction l with
  | nil => intro r _ x hx; simp at hx
  | cons a rest ih =>
    intro r h x hx
    rw [mapE] at h
    rcases hfa : f a with e | y
    · rw [hfa] at h
      exact absurd h (by simp)
    · rw [hfa] at h
      rcases List.mem_cons.mp hx with hx | hx
      · exact hx ▸ ⟨y, hfa⟩
      · rcases hrest : mapE f rest with e | ys
        · rw [hrest] at h
          exact absurd h (by simp)
        · exact ih hrest x hx

theorem mapE_subscript_zero {L : List JValue} (h : ∀ it ∈ L, isPair2 it = true) :
    mapE (fun item => pySubscript item 0) L = .ok (L.map pFst) := by
  induction L with
  | nil => rfl
  | cons it rest ih =>
    have hit := h it (List.mem_cons_self _ _)
    have hrest := ih (fun x hx => h x (List.mem_cons_of_mem _ hx))
    match it, hit with
    | .arr [a, b], _ =>
      rw [mapE, hrest]
      rfl

theorem mapE_subscript_one {L : List JValue} (h : ∀ it ∈ L, isPair2 it = true) :
    mapE (fun item => pySubscript item 1) L = .ok (L.map pSnd) := by
  induction L with
  | nil => rfl
  | cons it rest ih =>
    have hit := h it (List.mem_cons_self _ _)
    have hrest := ih (fun x hx => h x (List.mem_cons_of_mem _ hx))
    match it, hit with
    | .arr [a, b], _ =>
      rw [mapE, hrest]
      rfl

theorem zipWith_pair_reconstruct {L : List JValue} (h : ∀ it ∈ L, isPair2 it = true) :
    List.zipWith (fun a b => JValue.arr [a, b]) (L.map pFst) (L.map pSnd) = L := by
  induction L with
  | nil => rfl
  | cons it rest ih =>
    have hit := h it (List.mem_cons_self _ _)
    have hrest := ih (fun x hx => h x (List.mem_cons_of_mem _ hx))
    match it, hit with
    | .arr [a, b], _ =>
      rw [List.map_cons, List.map_cons, List.zipWith_cons_cons, hrest]
      rfl

theorem pySum_of_nums {ws : List JValue} (h : ∀ w ∈ ws, ∃ q, w = .num q) :
    pySum ws = .ok ((ws.map pyNumD).sum) := by
  induction ws with
  | nil => rfl
  | cons w rest ih =>
    rcases h w (List.mem_cons_self _ _) with ⟨q, hq⟩
    subst hq
    rw [pySum, ih (fun x hx => h x (List.mem_cons_of_mem _ hx))]
    rfl

theorem pyDiv_num_num (q S : ℚ) (hS : S ≠ 0) :
    pyDiv (.num q) (.num S) = .ok (q / S) := by
  simp only [pyDiv, pyNum?]
  rw [if_neg hS]

theorem pyDiv_num_zero (q : ℚ) :
    pyDiv (.num q) (.num 0) = .error .zeroDivisionError := by
  simp [pyDiv, pyNum?]

theorem mapE_normalizeStep (ws : List JValue) (S : ℚ) (hsum : pySum ws = .ok S)
    (hS : S ≠ 0) :
    ∀ l : List JValue, (∀ w ∈ l, ∃ q, w = .num q) →
      mapE (normalizeStep ws) l = .ok (l.map (fun w => pyNumD w / S)) := by
  intro l
  induction l with
  | nil => intro _; rfl
  | cons w rest ih =>
    intro hl
    rcases hl w (List.mem_cons_self _ _) with ⟨q, hq⟩
    subst hq
    have hstep : normalizeStep ws (.num q) = .ok (q / S) := by
      rw [normalizeStep, hsum]
      exact pyDiv_num_num q S hS
    rw [mapE, hstep, ih (fun x hx => hl x (List.mem_cons_of_mem _ hx))]
    rfl

theorem pyNormalize_of_nums {ws : List JValue} (h : ∀ w ∈ ws, ∃ q, w = .num q)
    (hS : (ws.map pyNumD).sum ≠ 0) :
    pyNormalize ws = .ok (ws.map (fun w => pyNumD w / (ws.map pyNumD).sum)) := by
  rw [pyNormalize]
  exact mapE_normalizeStep ws _ (pySum_of_nums h) hS ws h

theorem pyNormalize_zero_sum {ws : List JValue} (hne : ws ≠ [])
    (h : ∀ w ∈ ws, ∃ q, w = .num q) (hS : (ws.map pyNumD).sum = 0) :
    pyNormalize ws = .error .zeroDivisionError := by
  rcases ws with _ | ⟨w, rest⟩
  · exact absurd rfl hne
  · rcases h w (List.mem_cons_self _ _) with ⟨q, hq⟩
    have hsum := pySum_of_nums h
    rw [hS] at hsum
    subst hq
    have hstep : normalizeStep (JValue.num q :: rest) (.num q) =
        .error .zeroDivisionError := by
      rw [normalizeStep, hsum]
      exact pyDiv_num_zero q
    rw [pyNormalize, mapE, hstep]

/-! ### Inversion of `convert_to_1_0` -/

theorem bindE_ok_inv {α β : Type} {x : Except PyError α} {f : α → Except PyError β}
    {r : β} (h : bindE x f = .ok r) : ∃ a, x = .ok a ∧ f a = .ok r := by
  rcases x with e | a
  · exact absurd h (by simp [bindE])
  · exact ⟨a, rfl, h⟩

theorem bindE_of_ok {α β : Type} {x : Except PyError α} {a : α} (h : x = .ok a)
    (f : α → Except PyError β) : bindE x f = f a := by
  rw [h]
  rfl

theorem bindE_of_error {α β : Type} {x : Except PyError α} {e : PyError}
    (h : x = .error e) (f : α → Except PyError β) : bindE x f = .error e := by
  rw [h]
  rfl

theorem convert_to_1_0_ok {old_json new_json : Dict}
    (h : convert_to_1_0 old_json = .ok new_json) :
    ∃ sws shift_norm inner_items inner_values inner_probs
      outer_items outer_values outer_probs,
      pyIter (dictGet old_json "shift_weights" (.arr [])) = .ok sws ∧
      pyNormalize sws = .ok shift_norm ∧
      pyIter (dictGet old_json "inner_size_probs" (.arr [])) = .ok inner_items ∧
      mapE (fun item => pySubscript item 0) inner_items = .ok inner_values ∧
      mapE (fun item => pySubscript item 1) inner_items = .ok inner_probs ∧
      pyIter (dictGet old_json "outer_margin_probs" (.arr [])) = .ok outer_items ∧
      mapE (fun item => pySubscript item 0) outer_items = .ok outer_values ∧
      mapE (fun item => pySubscript item 1) outer_items = .ok outer_probs ∧
      new_json = insert_at_position
        (migratedBody old_json inner_values inner_probs outer_values outer_probs shift_norm)
        "version" (.str "1.0") 2 := by
  rw [convert_to_1_0] at h
  obtain ⟨sws, h1, h⟩ := bindE_ok_inv h
  obtain ⟨shift_norm, h2, h⟩ := bindE_ok_inv h
  obtain ⟨inner_items, h3, h⟩ := bindE_ok_inv h
  obtain ⟨inner_values, h4, h⟩ := bindE_ok_inv h
  obtain ⟨inner_probs, h5, h⟩ := bindE_ok_inv h
  obtain ⟨outer_items, h6, h⟩ := bindE_ok_inv h
  obtain ⟨outer_values, h7, h⟩ := bindE_ok_inv h
  obtain ⟨outer_probs, h8, h⟩ := bindE_ok_inv h
  exact ⟨sws, shift_norm, inner_items, inner_values, inner_probs,
    outer_items, outer_values, outer_probs, h1, h2, h3, h4, h5, h6, h7, h8,
    (Except.ok.inj h).symm⟩

theorem convert_to_1_0_eq_ok {old_json : Dict} {sws inner_items outer_items
      inner_values inner_probs outer_values outer_probs : List JValue}
    {shift_norm : List ℚ}
    (h1 : pyIter (dictGet old_json "shift_weights" (.arr [])) = .ok sws)
    (h2 : pyNormalize sws = .ok shift_norm)
    (h3 : pyIter (dictGet old_json "inner_size_probs" (.arr [])) = .ok inner_items)
    (h4 : mapE (fun item => pySubscript item 0) inner_items = .ok inner_values)
    (h5 : mapE (fun item => pySubscript item 1) inner_items = .ok inner_probs)
    (h6 : pyIter (dictGet old_json "outer_margin_probs" (.arr [])) = .ok outer_items)
    (h7 : mapE (fun item => pySubscript item 0) outer_items = .ok outer_values)
    (h8 : mapE (fun item => pySubscript item 1) outer_items = .ok outer_probs) :
    convert_to_1_0 old_json = .ok (insert_at_position
      (migratedBody old_json inner_values inner_probs outer_values outer_probs shift_norm)
      "version" (.str "1.0") 2) := by
  rw [convert_to_1_0, bindE_of_ok h1, bindE_of_ok h2, bindE_of_ok h3, bindE_of_ok h4,
    bindE_of_ok h5, bindE_of_ok h6, bindE_of_ok h7, bindE_of_ok h8]

theorem convert_to_1_0_error_of_normalize {old_json : Dict} {sws : List JValue}
    {e : PyError}
    (h1 : pyIter (dictGet old_json "shift_weights" (.arr [])) = .ok sws)
    (h2 : pyNormalize sws = .error e) :
    convert_to_1_0 old_json = .error e := by
  rw [convert_to_1_0, bindE_of_ok h1, bindE_of_error h2]

/-! ### Lemmas about the migrated body -/

theorem nodup_keys_migratedBody {old_json : Dict} (hnd : (keysOf old_json).Nodup)
    (iv ip ov op : List JValue) (sn : List ℚ) :
    (keysOf (migratedBody old_json iv ip ov op sn)).Nodup :=
  nodup_keys_dictInsert _ _ (nodup_keys_dictInsert _ _ (nodup_keys_dictInsert _ _ hnd))

theorem lookup_migratedBody_inner (old_json : Dict) (iv ip ov op : List JValue)
    (sn : List ℚ) :
    lookup (migratedBody old_json iv ip ov op sn) "inner_size_probs" =
      some (.obj [("values", .arr iv), ("probs", .arr ip)]) := by
  rw [migratedBody, lookup_dictInsert_ne _ _ (by decide),
    lookup_dictInsert_ne _ _ (by decide), lookup_dictInsert_self]

theorem lookup_migratedBody_outer (old_json : Dict) (iv ip ov op : List JValue)
    (sn : List ℚ) :
    lookup (migratedBody old_json iv ip ov op sn) "outer_margin_probs" =
      some (.obj [("values", .arr ov), ("probs", .arr op)]) := by
  rw [migratedBody, lookup_dictInsert_ne _ _ (by decide), lookup_dictInsert_self]

theorem lookup_migratedBody_shift (old_json : Dict) (iv ip ov op : List JValue)
    (sn : List ℚ) :
    lookup (migratedBody old_json iv ip ov op sn) "shift_weights" =
      some (.obj [("values", .null), ("probs", .arr (sn.map JValue.num))]) := by
  rw [migratedBody, lookup_dictInsert_self]

theorem lookup_migratedBody_other (old_json : Dict) (iv ip ov op : List JValue)
    (sn : List ℚ) {k : String} (hki : k ≠ "inner_size_probs")
    (hko : k ≠ "outer_margin_probs") (hks : k ≠ "shift_weights") :
    lookup (migratedBody old_json iv ip ov op sn) k = lookup old_json k := by
  rw [migratedBody, lookup_dictInsert_ne _ _ hks, lookup_dictInsert_ne _ _ hko,
    lookup_dictInsert_ne _ _ hki]

theorem mem_keys_migratedBody {old_json : Dict} {a : String}
    (iv ip ov op : List JValue) (sn : List ℚ)
    (h : a ∈ keysOf (migratedBody old_json iv ip ov op sn)) :
    a ∈ keysOf old_json ∨ a = "inner_size_probs" ∨ a = "outer_margin_probs" ∨
      a = "shift_weights" := by
  rw [migratedBody, keysOf_dictInsert] at h
  rcases List.mem_append.mp h with h | h
  · rw [keysOf_dictInsert] at h
    rcases List.mem_append.mp h with h | h
    · rw [keysOf_dictInsert] at h
      rcases List.mem_append.mp h with h | h
      · exact Or.inl h
      · rcases Decidable.em ("inner_size_probs" ∈
          keysOf old_json) with hm | hm
        · rw [if_pos hm] at h
          simp at h
        · rw [if_neg hm] at h
          exact Or.inr (Or.inl (List.mem_singleton.mp h))
    · split at h
      · simp at h
      · exact Or.inr (Or.inr (Or.inl (List.mem_singleton.mp h)))
  · split at h
    · simp at h
    · exact Or.inr (Or.inr (Or.inr (List.mem_singleton.mp h)))

theorem not_mem_keys_migratedBody_version {old_json : Dict}
    (iv ip ov op : List JValue) (sn : List ℚ)
    (h : "version" ∉ keysOf old_json) :
    "version" ∉ keysOf (migratedBody old_json iv ip ov op sn) := by
  intro hmem
  rcases mem_keys_migratedBody iv ip ov op sn hmem with hc | hc | hc | hc
  · exact h hc
  · exact absurd hc (by decide)
  · exact absurd hc (by decide)
  · exact absurd hc (by decide)

theorem two_mem_le_length {α : Type} {a b : α} {l : List α}
    (ha : a ∈ l) (hb : b ∈ l) (hab : a ≠ b) : 2 ≤ l.length := by
  match l with
  | [] => simp at ha
  | [x] =>
    rw [List.mem_singleton] at ha hb
    exact absurd (ha.trans hb.symm) hab
  | x :: y :: rest => simp [List.length]

theorem two_le_length_migratedBody (old_json : Dict) (iv ip ov op : List JValue)
    (sn : List ℚ) : 2 ≤ (migratedBody old_json iv ip ov op sn).length := by
  have h1 : "outer_margin_probs" ∈ keysOf (migratedBody old_json iv ip ov op sn) := by
    rw [migratedBody]
    exact mem_keys_dictInsert_of_mem _ _ (mem_keys_dictInsert_self _ _ _)
  have h2 : "shift_weights" ∈ keysOf (migratedBody old_json iv ip ov op sn) := by
    rw [migratedBody]
    exact mem_keys_dictInsert_self _ _ _
  have := two_mem_le_length h1 h2 (by decide)
  rw [keysOf, List.length_map] at this
  exact this

/-! ### Concrete example configs (spec section 8's worked example) -/

/-- The spec's worked example of a legacy config. -/
def legacyExample : Dict :=
  [("a", .num 1), ("b", .num 2),
   ("inner_size_probs", .arr [.arr [.num 0, .num (1/2)], .arr [.num 1, .num (1/2)]]),
   ("outer_margin_probs", .arr []),
   ("shift_weights", .arr [.num 1, .num 3])]

/-- The migrated form of `legacyExample` (computed by the embedded code). -/
def migratedExample : Dict :=
  [("a", .num 1), ("b", .num 2), ("version", .str "1.0"),
   ("inner_size_probs", .obj [("values", .arr [.num 0, .num 1]),
                              ("probs", .arr [.num (1/2), .num (1/2)])]),
   ("outer_margin_probs", .obj [("values", .arr []), ("probs", .arr [])]),
   ("shift_weights", .obj [("values", .null),
                           ("probs", .arr [.num (1/4), .num (3/4)])])]

theorem convert_legacyExample :
    convert_to_1_0 legacyExample = .ok migratedExample := by
  norm_num +decide [convert_to_1_0, bindE, pyIter, dictGet, lookup, pyNormalize, mapE,
    normalizeStep, pySum, pyDiv, pyNum?, pySubscript, insert_at_position,
    migratedBody, dictInsert, dictOfItems, pyListInsert, setValue, keysOf,
    legacyExample, migratedExample]

/-! ### Claim C1 -/

/-- C1: for every legacy mapping (a dict, so with pairwise-distinct keys)
whose `inner_size_probs` and `outer_margin_probs` entries are 2-element
`(value, probability)` pairs, the output of `convert_to_1_0` has, for each
of these two fields, a `values` list and a `probs` list of equal length,
and zipping `values` with `probs` in order reconstructs the original pair
list exactly. -/
theorem C1_pair_fields_roundtrip (old_json new_json : Dict)
    (hnd : (keysOf old_json).Nodup)
    (innerL outerL : List JValue)
    (hi : dictGet old_json "inner_size_probs" (.arr []) = .arr innerL)
    (hio : ∀ it ∈ innerL, isPair2 it = true)
    (ho : dictGet old_json "outer_margin_probs" (.arr []) = .arr outerL)
    (hoo : ∀ it ∈ outerL, isPair2 it = true)
    (hok : convert_to_1_0 old_json = .ok new_json) :
    (∃ vals probs, lookup new_json "inner_size_probs" =
        some (.obj [("values", .arr vals), ("probs", .arr probs)]) ∧
      vals.length = probs.length ∧
      List.zipWith (fun a b => JValue.arr [a, b]) vals probs = innerL) ∧
    (∃ vals probs, lookup new_json "outer_margin_probs" =
        some (.obj [("values", .arr vals), ("probs", .arr probs)]) ∧
      vals.length = probs.length ∧
      List.zipWith (fun a b => JValue.arr [a, b]) vals probs = outerL) := by
  obtain ⟨sws, sn, ii, iv, ip, oi, ov, op, h1, h2, h3, h4, h5, h6, h7, h8, hshape⟩ :=
    convert_to_1_0_ok hok
  rw [hi] at h3
  simp only [pyIter] at h3
  obtain rfl : innerL = ii := Except.ok.inj h3
  rw [ho] at h6
  simp only [pyIter] at h6
  obtain rfl : outerL = oi := Except.ok.inj h6
  rw [mapE_subscript_zero hio] at h4
  obtain rfl : innerL.map pFst = iv := Except.ok.inj h4
  rw [mapE_subscript_one hio] at h5
  obtain rfl : innerL.map pSnd = ip := Except.ok.inj h5
  rw [mapE_subscript_zero hoo] at h7
  obtain rfl : outerL.map pFst = ov := Except.ok.inj h7
  rw [mapE_subscript_one hoo] at h8
  obtain rfl : outerL.map pSnd = op := Except.ok.inj h8
  subst hshape
  have hndm := nodup_keys_migratedBody hnd (innerL.map pFst) (innerL.map pSnd)
    (outerL.map pFst) (outerL.map pSnd) sn
  constructor
  · refine ⟨innerL.map pFst, innerL.map pSnd, ?_, ?_, zipWith_pair_reconstruct hio⟩
    · rw [lookup_insert_at_position_ne _ _ _ hndm (by decide),
        lookup_migratedBody_inner]
    · rw [List.length_map, List.length_map]
  · refine ⟨outerL.map pFst, outerL.map pSnd, ?_, ?_, zipWith_pair_reconstruct hoo⟩
    · rw [lookup_insert_at_position_ne _ _ _ hndm (by decide),
        lookup_migratedBody_outer]
    · rw [List.length_map, List.length_map]

/-- Witness for C1 at the spec's worked example. -/
theorem C1_witness :
    convert_to_1_0 legacyExample = .ok migratedExample ∧
    ((∃ vals probs, lookup migratedExample "inner_size_probs" =
        some (.obj [("values", .arr vals), ("probs", .arr probs)]) ∧
      vals.length = probs.length ∧
      List.zipWith (fun a b => JValue.arr [a, b]) vals probs =
        [.arr [.num 0, .num (1/2)], .arr [.num 1, .num (1/2)]]) ∧
     (∃ vals probs, lookup migratedExample "outer_margin_probs" =
        some (.obj [("values", .arr vals), ("probs", .arr probs)]) ∧
      vals.length = probs.length ∧
      List.zipWith (fun a b => JValue.arr [a, b]) vals probs = ([] : List JValue))) :=
  ⟨convert_legacyExample,
    C1_pair_fields_roundtrip legacyExample migratedExample (by decide)
      [.arr [.num 0, .num (1/2)], .arr [.num 1, .num (1/2)]] []
      rfl (by decide) rfl (by decide) convert_legacyExample⟩

/-! ### Claim C2 -/

/-- C2: for every legacy mapping whose `shift_weights` field is a non-empty
sequence of numbers with positive sum, the output of `convert_to_1_0` binds
`shift_weights` to a table with `values = null` and `probs` whose `i`-th
element is `original[i] / sum(original)`, and the probs sum to exactly `1`
(exact rational arithmetic). -/
theorem C2_shift_weights_normalized (old_json new_json : Dict)
    (hnd : (keysOf old_json).Nodup)
    (ws : List JValue)
    (hw : lookup old_json "shift_weights" = some (.arr ws))
    (hne : ws ≠ [])
    (hnum : ∀ w ∈ ws, ∃ q, w = .num q)
    (hpos : 0 < (ws.map pyNumD).sum)
    (hok : convert_to_1_0 old_json = .ok new_json) :
    lookup new_json "shift_weights" =
      some (.obj [("values", .null),
        ("probs", .arr (ws.map (fun w => .num (pyNumD w / (ws.map pyNumD).sum))))]) ∧
    (ws.map (fun w => pyNumD w / (ws.map pyNumD).sum)).sum = 1 := by
  obtain ⟨sws, sn, ii, iv, ip, oi, ov, op, h1, h2, h3, h4, h5, h6, h7, h8, hshape⟩ :=
    convert_to_1_0_ok hok
  have hget : dictGet old_json "shift_weights" (.arr []) = .arr ws := by
    rw [dictGet, hw]
  rw [hget] at h1
  simp only [pyIter] at h1
  obtain rfl : ws = sws := Except.ok.inj h1
  rw [pyNormalize_of_nums hnum (ne_of_gt hpos)] at h2
  obtain rfl : ws.map (fun w => pyNumD w / (ws.map pyNumD).sum) = sn := Except.ok.inj h2
  subst hshape
  have hndm := nodup_keys_migratedBody hnd iv ip ov op
    (ws.map (fun w => pyNumD w / (ws.map pyNumD).sum))
  constructor
  · rw [lookup_insert_at_position_ne _ _ _ hndm (by decide),
      lookup_migratedBody_shift, List.map_map]
    rfl
  · simp only [div_eq_mul_inv]
    rw [List.sum_map_mul_right]
    exact mul_inv_cancel₀ (ne_of_gt hpos)

/-- Witness for C2 at the spec's worked example (`shift_weights = [1, 3]`). -/
theorem C2_witness :
    0 < (([JValue.num 1, JValue.num 3]).map pyNumD).sum ∧
    (lookup migratedExample "shift_weights" =
      some (.obj [("values", .null),
        ("probs", .arr (([JValue.num 1, JValue.num 3]).map
          (fun w => .num (pyNumD w / (([JValue.num 1, JValue.num 3]).map pyNumD).sum))))]) ∧
    (([JValue.num 1, JValue.num 3]).map
      (fun w => pyNumD w / (([JValue.num 1, JValue.num 3]).map pyNumD).sum)).sum = 1) :=
  ⟨by norm_num [pyNumD, pyNum?],
   C2_shift_weights_normalized legacyExample migratedExample (by decide)
     [.num 1, .num 3] rfl (List.cons_ne_nil _ _)
     (by
       intro w hw
       rcases List.mem_cons.mp hw with rfl | hw
       · exact ⟨1, rfl⟩
       rcases List.mem_cons.mp hw with rfl | hw
       · exact ⟨3, rfl⟩
       simp at hw)
     (by norm_num [pyNumD, pyNum?]) convert_legacyExample⟩

/-! ### Claim C5 -/

/-- The migrated form of the empty legacy mapping. -/
def emptyMigrated : Dict :=
  [("inner_size_probs", .obj [("values", .arr []), ("probs", .arr [])]),
   ("outer_margin_probs", .obj [("values", .arr []), ("probs", .arr [])]),
   ("version", .str "1.0"),
   ("shift_weights", .obj [("values", .null), ("probs", .arr [])])]

theorem convert_empty : convert_to_1_0 [] = .ok emptyMigrated := by
  norm_num +decide [convert_to_1_0, bindE, pyIter, dictGet, lookup, pyNormalize, mapE,
    normalizeStep, pySum, pyDiv, pyNum?, pySubscript, insert_at_position,
    migratedBody, dictInsert, dictOfItems, pyListInsert, setValue, keysOf,
    emptyMigrated]

/-- C5: `convert_to_1_0` raises `ZeroDivisionError` when `shift_weights` is
present, non-empty, numeric and sums to zero; an absent or empty
`shift_weights` skips normalization and yields an empty `probs` list in the
output; and when all three probability fields are absent they default to
the empty sequence and the conversion succeeds with no error. -/
theorem C5_shift_weights_error_handling (old_json : Dict) :
    (∀ ws, lookup old_json "shift_weights" = some (.arr ws) → ws ≠ [] →
      (∀ w ∈ ws, ∃ q, w = .num q) → (ws.map pyNumD).sum = 0 →
      convert_to_1_0 old_json = .error .zeroDivisionError) ∧
    ((keysOf old_json).Nodup →
      (lookup old_json "shift_weights" = none ∨
        lookup old_json "shift_weights" = some (.arr [])) →
      ∀ new_json, convert_to_1_0 old_json = .ok new_json →
        lookup new_json "shift_weights" =
          some (.obj [("values", .null), ("probs", .arr [])])) ∧
    (lookup old_json "inner_size_probs" = none →
      lookup old_json "outer_margin_probs" = none →
      lookup old_json "shift_weights" = none →
      ∃ new_json, convert_to_1_0 old_json = .ok new_json) := by
  refine ⟨?_, ?_, ?_⟩
  · intro ws hw hne hnum hzero
    have hget : dictGet old_json "shift_weights" (.arr []) = .arr ws := by
      rw [dictGet, hw]
    have h1 : pyIter (dictGet old_json "shift_weights" (.arr [])) = .ok ws := by
      rw [hget]
      rfl
    exact convert_to_1_0_error_of_normalize h1 (pyNormalize_zero_sum hne hnum hzero)
  · intro hnd hw new_json hok
    obtain ⟨sws, sn, ii, iv, ip, oi, ov, op, h1, h2, h3, h4, h5, h6, h7, h8, hshape⟩ :=
      convert_to_1_0_ok hok
    have hget : dictGet old_json "shift_weights" (.arr []) = .arr [] := by
      rcases hw with hw | hw
      · rw [dictGet, hw]
      · rw [dictGet, hw]
    rw [hget] at h1
    simp only [pyIter] at h1
    obtain rfl : ([] : List JValue) = sws := Except.ok.inj h1
    obtain rfl : ([] : List ℚ) = sn := Except.ok.inj h2
    subst hshape
    rw [lookup_insert_at_position_ne _ _ _
      (nodup_keys_migratedBody hnd iv ip ov op []) (by decide),
      lookup_migratedBody_shift]
    rfl
  · intro hi ho hs
    have hg1 : dictGet old_json "shift_weights" (.arr []) = .arr [] := by
      rw [dictGet, hs]
    have hg2 : dictGet old_json "inner_size_probs" (.arr []) = .arr [] := by
      rw [dictGet, hi]
    have hg3 : dictGet old_json "outer_margin_probs" (.arr []) = .arr [] := by
      rw [dictGet, ho]
    exact ⟨_, @convert_to_1_0_eq_ok old_json [] [] [] [] [] [] [] []
      (by rw [hg1]; rfl) rfl (by rw [hg2]; rfl) rfl rfl (by rw [hg3]; rfl) rfl rfl⟩

/-- Witness for C5: a zero-sum `shift_weights` raises `ZeroDivisionError`;
the empty mapping (all fields absent) migrates without error, with an empty
`probs` list for `shift_weights`. -/
theorem C5_witness :
    convert_to_1_0 [("shift_weights", .arr [.num 1, .num (-1)])] =
      .error .zeroDivisionError ∧
    (∃ new_json, convert_to_1_0 [] = .ok new_json) ∧
    lookup emptyMigrated "shift_weights" =
      some (.obj [("values", .null), ("probs", .arr [])]) :=
  ⟨(C5_shift_weights_error_handling [("shift_weights", .arr [.num 1, .num (-1)])]).1
      [.num 1, .num (-1)] rfl (List.cons_ne_nil _ _)
      (by
        intro w hw
        rcases List.mem_cons.mp hw with rfl | hw
        · exact ⟨1, rfl⟩
        rcases List.mem_cons.mp hw with rfl | hw
        · exact ⟨-1, rfl⟩
        simp at hw)
      (by norm_num [pyNumD, pyNum?]),
   (C5_shift_weights_error_handling []).2.2 rfl rfl rfl,
   (C5_shift_weights_error_handling []).2.1 (by decide) (Or.inl rfl)
     emptyMigrated convert_empty⟩

/-! ### Claim C6 -/

theorem mem_keys_of_lookup {d : Dict} {k : String} {v : JValue}
    (h : lookup d k = some v) : k ∈ keysOf d := by
  induction d with
  | nil => simp [lookup] at h
  | cons p rest ih =>
    rw [lookup] at h
    rw [keysOf_cons, List.mem_cons]
    rcases eq_or_ne p.1 k with hk | hk
    · exact Or.inl hk.symm
    · rw [if_neg hk] at h
      exact Or.inr (ih h)

/-- C6: for every legacy mapping (distinct keys, no `version` key yet),
every input key other than the three probability fields appears in the
output of `convert_to_1_0` bound to its unchanged value. -/
theorem C6_passthrough_keys_unchanged (old_json new_json : Dict)
    (hnd : (keysOf old_json).Nodup)
    (hver : "version" ∉ keysOf old_json)
    (hok : convert_to_1_0 old_json = .ok new_json) :
    ∀ k ∈ keysOf old_json, k ≠ "inner_size_probs" → k ≠ "outer_margin_probs" →
      k ≠ "shift_weights" →
      k ∈ keysOf new_json ∧ lookup new_json k = lookup old_json k := by
  obtain ⟨sws, sn, ii, iv, ip, oi, ov, op, h1, h2, h3, h4, h5, h6, h7, h8, hshape⟩ :=
    convert_to_1_0_ok hok
  subst hshape
  intro k hk hki hko hks
  have hkv : k ≠ "version" := fun hc => hver (hc ▸ hk)
  have hndm := nodup_keys_migratedBody hnd iv ip ov op sn
  have hlk : lookup (insert_at_position (migratedBody old_json iv ip ov op sn)
      "version" (.str "1.0") 2) k = lookup old_json k := by
    rw [lookup_insert_at_position_ne _ _ _ hndm hkv,
      lookup_migratedBody_other _ _ _ _ _ _ hki hko hks]
  refine ⟨?_, hlk⟩
  rcases lookup_isSome_of_mem hk with ⟨v, hv⟩
  exact mem_keys_of_lookup (hlk.trans hv)

/-- Witness for C6: the passthrough key `"a"` of the worked example. -/
theorem C6_witness :
    "a" ∈ keysOf migratedExample ∧
    lookup migratedExample "a" = lookup legacyExample "a" :=
  C6_passthrough_keys_unchanged legacyExample migratedExample (by decide) (by decide)
    convert_legacyExample "a" (by decide) (by decide) (by decide) (by decide)

/-! ### Claim C7 -/

/-- C7: run over the explicit heap, `convert_to_1_0` returns a reference to
a new dict and leaves the input dict's heap cell untouched: the input's
keys and values are the same before and after the call. -/
theorem C7_no_mutation (h : Heap) (r : Nat) (old_json : Dict)
    (hr : h[r]? = some old_json)
    (h2 : Heap) (nr : Nat)
    (hok : convert_to_1_0_heap h r = .ok (h2, nr)) :
    nr ≠ r ∧ h2[r]? = some old_json := by
  have hlt : r < h.length := by
    rcases List.getElem?_eq_some.mp hr with ⟨hl, _⟩
    exact hl
  rw [convert_to_1_0_heap] at hok
  obtain ⟨sws, h1, hok⟩ := bindE_ok_inv hok
  obtain ⟨sn, hh2, hok⟩ := bindE_ok_inv hok
  obtain ⟨ii, h3, hok⟩ := bindE_ok_inv hok
  obtain ⟨iv, h4, hok⟩ := bindE_ok_inv hok
  obtain ⟨ip, h5, hok⟩ := bindE_ok_inv hok
  obtain ⟨oi, h6, hok⟩ := bindE_ok_inv hok
  obtain ⟨ov, h7, hok⟩ := bindE_ok_inv hok
  obtain ⟨op, h8, hok⟩ := bindE_ok_inv hok
  have hpair := Except.ok.inj hok
  obtain ⟨hh, hnr⟩ := Prod.mk.inj hpair.symm
  have hlen1 : (h ++ [heapGet h r]).length = h.length + 1 := by
    rw [List.length_append, List.length_singleton]
  subst hh
  subst hnr
  constructor
  · rw [heapSet, heapSet, heapSet, List.length_set, List.length_set, List.length_set,
      hlen1]
    omega
  · rw [List.getElem?_append, heapSet, heapSet, heapSet]
    rw [if_pos (by rw [List.length_set, List.length_set, List.length_set, hlen1]; omega)]
    rw [List.getElem?_set_ne (by omega), List.getElem?_set_ne (by omega),
      List.getElem?_set_ne (by omega), List.getElem?_append, if_pos hlt]
    exact hr

/-- A one-key dict used to exercise the heap model. -/
def heapInputDict : Dict := [("a", .num 1)]

/-- The heap after a successful heap-model run on `[heapInputDict]`:
cell 0 (the input) is untouched, cell 1 is the mutated copy, cell 2 the
final dict built by `insert_at_position`. -/
def heapAfterRun : Heap :=
  [heapInputDict,
   [("a", .num 1),
    ("inner_size_probs", .obj [("values", .arr []), ("probs", .arr [])]),
    ("outer_margin_probs", .obj [("values", .arr []), ("probs", .arr [])]),
    ("shift_weights", .obj [("values", .null), ("probs", .arr [])])],
   [("a", .num 1),
    ("inner_size_probs", .obj [("values", .arr []), ("probs", .arr [])]),
    ("version", .str "1.0"),
    ("outer_margin_probs", .obj [("values", .arr []), ("probs", .arr [])]),
    ("shift_weights", .obj [("values", .null), ("probs", .arr [])])]]

theorem convert_heap_run :
    convert_to_1_0_heap [heapInputDict] 0 = .ok (heapAfterRun, 2) := by
  norm_num +decide [convert_to_1_0_heap, bindE, pyIter, dictGet, lookup, pyNormalize,
    mapE, normalizeStep, pySum, pyDiv, pyNum?, pySubscript, insert_at_position,
    dictInsert, dictOfItems, pyListInsert, setValue, keysOf, heapGet, heapSet,
    heapInputDict, heapAfterRun]

/-- Witness for C7 at a concrete one-cell heap. -/
theorem C7_witness :
    ([heapInputDict] : Heap)[0]? = some heapInputDict ∧
    (2 ≠ 0 ∧ heapAfterRun[0]? = some heapInputDict) :=
  ⟨rfl, C7_no_mutation [heapInputDict] 0 heapInputDict rfl heapAfterRun 2
    convert_heap_run⟩

/-! ### Claim C8 -/

/-- Output of `convert_to_1_0` on a config whose `inner_size_probs` has a
single 3-element entry: the conversion succeeds, elements past the first
two are ignored. -/
def c8Output : Dict :=
  [("inner_size_probs", .obj [("values", .arr [.num 1]), ("probs", .arr [.num 2])]),
   ("outer_margin_probs", .obj [("values", .arr []), ("probs", .arr [])]),
   ("version", .str "1.0"),
   ("shift_weights", .obj [("values", .null), ("probs", .arr [])])]

/-- Counterexample to C8 as stated: `[1, 2, 3]` is *not* a 2-element
sequence, yet `convert_to_1_0` succeeds on a config containing it (Python
`item[0]`/`item[1]` do not care about extra elements). -/
theorem C8_counterexample :
    isPair2 (.arr [.num 1, .num 2, .num 3]) = false ∧
    convert_to_1_0 [("inner_size_probs", .arr [.arr [.num 1, .num 2, .num 3]])] =
      .ok c8Output :=
  ⟨rfl, by
    norm_num +decide [convert_to_1_0, bindE, pyIter, dictGet, lookup, pyNormalize,
      mapE, normalizeStep, pySum, pyDiv, pyNum?, pySubscript, insert_at_position,
      migratedBody, dictInsert, dictOfItems, pyListInsert, setValue, keysOf, c8Output]⟩

/-- C8 amended: `convert_to_1_0` fails with an error (a `TypeError` for
non-subscriptable entries, an `IndexError` for too-short sequences)
whenever `inner_size_probs` or `outer_margin_probs` contains an entry that
cannot be subscripted at position 0 or 1; entries that are sequences of
length at least 2 do not cause an error, extra elements being ignored. -/
theorem C8_amended_bad_entry_fails (old_json : Dict) (L : List JValue)
    (hfield : dictGet old_json "inner_size_probs" (.arr []) = .arr L ∨
      dictGet old_json "outer_margin_probs" (.arr []) = .arr L)
    (hbad : ∃ it ∈ L, (∃ e, pySubscript it 0 = .error e) ∨
      (∃ e, pySubscript it 1 = .error e)) :
    ∃ e, convert_to_1_0 old_json = .error e := by
  rcases hres : convert_to_1_0 old_json with e | new_json
  · exact ⟨e, rfl⟩
  · exfalso
    obtain ⟨sws, sn, ii, iv, ip, oi, ov, op, h1, h2, h3, h4, h5, h6, h7, h8, _⟩ :=
      convert_to_1_0_ok hres
    obtain ⟨it, hmem, hb⟩ := hbad
    rcases hfield with hf | hf
    · rw [hf] at h3
      simp only [pyIter] at h3
      obtain rfl : L = ii := Except.ok.inj h3
      rcases hb with ⟨e, hb⟩ | ⟨e, hb⟩
      · rcases mapE_ok_forall h4 it hmem with ⟨y, hy⟩
        rw [hb] at hy
        exact Except.noConfusion hy
      · rcases mapE_ok_forall h5 it hmem with ⟨y, hy⟩
        rw [hb] at hy
        exact Except.noConfusion hy
    · rw [hf] at h6
      simp only [pyIter] at h6
      obtain rfl : L = oi := Except.ok.inj h6
      rcases hb with ⟨e, hb⟩ | ⟨e, hb⟩
      · rcases mapE_ok_forall h7 it hmem with ⟨y, hy⟩
        rw [hb] at hy
        exact Except.noConfusion hy
      · rcases mapE_ok_forall h8 it hmem with ⟨y, hy⟩
        rw [hb] at hy
        exact Except.noConfusion hy

/-- Witness for amended C8: a 1-element entry `[1]` makes the conversion
fail (`item[1]` raises `IndexError`). -/
theorem C8_amended_witness :
    (∃ e, pySubscript (.arr [.num 1]) 1 = .error e) ∧
    (∃ e, convert_to_1_0 [("inner_size_probs", .arr [.arr [.num 1]])] = .error e) :=
  ⟨⟨.indexError, rfl⟩,
   C8_amended_bad_entry_fails _ [.arr [.num 1]] (Or.inl rfl)
     ⟨.arr [.num 1], List.mem_singleton.mpr rfl, Or.inr ⟨.indexError, rfl⟩⟩⟩

/-! ### Claim C9 -/

theorem pyTrunc_radii_range (size : ℕ) (hs : size ≠ 1) :
    (pyTrunc ((size : ℚ) / 2 - 1) + 1).toNat = size / 2 := by
  rcases Nat.even_or_odd' size with ⟨k, hk | hk⟩
  · subst hk
    rcases Nat.eq_zero_or_pos k with rfl | hkpos
    · have h0 : ((2 * 0 : ℕ) : ℚ) / 2 - 1 = ((-1 : ℤ) : ℚ) := by norm_num
      rw [pyTrunc, h0, if_pos (by norm_num), Int.ceil_intCast]
      omega
    · have h1 : ((2 * k : ℕ) : ℚ) / 2 - 1 = ((k - 1 : ℤ) : ℚ) := by
        push_cast
        ring
      rw [pyTrunc, h1, if_neg (not_lt.mpr (by
        rw [Int.cast_nonneg]
        omega)), Int.floor_intCast]
      omega
  · subst hk
    have hkpos : 1 ≤ k := by omega
    have h1 : ((2 * k + 1 : ℕ) : ℚ) / 2 - 1 = ((k - 1 : ℤ) : ℚ) + 1 / 2 := by
      push_cast
      ring
    have hnn : (0 : ℚ) ≤ ((k - 1 : ℤ) : ℚ) + 1 / 2 := by
      have : (0 : ℚ) ≤ ((k - 1 : ℤ) : ℚ) := by
        rw [Int.cast_nonneg]
        omega
      linarith
    have hhalf : ⌊(1 / 2 : ℚ)⌋ = 0 := by norm_num
    rw [pyTrunc, h1, if_neg (not_lt.mpr hnn), Int.floor_int_add, hhalf]
    omega

/-- Counterexample to C9 as stated: at grid size 1, `int((size/2) - 1)`
truncates `-0.5` toward zero, so `get_max_radii` iterates once and returns
`[0.0]`, while the other three implementations use `range(size // 2)` and
return `[]`. -/
theorem C9_counterexample : get_max_radii 1 ≠ get_max_radii_simpl 1 := by
  have h : pyTrunc (((1 : ℕ) : ℚ) / 2 - 1) = 0 := by
    rw [pyTrunc, if_pos (by norm_num)]
    norm_num
  have h1 : get_max_radii 1 = [0] := by
    rw [get_max_radii, h]
    norm_num [pyRangeZ, List.range_succ]
  have h2 : get_max_radii_simpl 1 = [] := by
    norm_num [get_max_radii_simpl]
  rw [h1, h2]
  simp

/-- C9 amended: for every grid size other than 1, the four redundant
implementations agree: `get_max_radii`, `get_max_radii_simpl`,
`totally_cursed` and `even_more_cursed` return the same list (at size 1,
`get_max_radii` returns `[0.0]` while the other three return `[]`). -/
theorem C9_amended_radii_agree (size : ℕ) (hs : size ≠ 1) :
    get_max_radii size = get_max_radii_simpl size ∧
    get_max_radii_simpl size = totally_cursed size ∧
    totally_cursed size = even_more_cursed size := by
  refine ⟨?_, ?_, ?_⟩
  · rw [get_max_radii, pyRangeZ, pyTrunc_radii_range size hs, List.map_map,
      get_max_radii_simpl]
    apply List.map_congr_left
    intro d _
    rw [Function.comp_apply, get_dist, Int.ofNat_eq_natCast]
  · rw [get_max_radii_simpl, totally_cursed]
    apply List.map_congr_left
    intro d _
    rw [get_dist]
    push_cast
    ring
  · rw [totally_cursed, even_more_cursed]
    apply List.map_congr_left
    intro d _
    rw [wtf_is_going_on]
    push_cast
    ring

/-- Witness for amended C9 at grid size 6. -/
theorem C9_witness :
    (6 : ℕ) ≠ 1 ∧
    (get_max_radii 6 = get_max_radii_simpl 6 ∧
     get_max_radii_simpl 6 = totally_cursed 6 ∧
     totally_cursed 6 = even_more_cursed 6) :=
  ⟨by decide, C9_amended_radii_agree 6 (by decide)⟩

/-! ### Claim C4 -/

/-- A file system in which the migration target `cfg` holds a legacy config
while a stale backup already occupies `cfg.bak`. -/
def staleBackupFS : FileSys :=
  [("cfg", .obj legacyExample), ("cfg.bak", .str "precious-old-backup")]

/-- The file system after migrating `cfg` over the stale backup. -/
def fsAfterMigrate : FileSys :=
  [("cfg.bak", .obj legacyExample), ("cfg", .obj migratedExample)]

/-- C4 evidence: with POSIX `os.rename` semantics, migrating a path whose
`<path>.bak` already exists does **not** raise an error: the run succeeds
and the pre-existing backup is silently replaced, contrary to the spec's
fail-loudly requirement. -/
theorem C4_rename_silently_overwrites_backup :
    lookup staleBackupFS "cfg.bak" = some (.str "precious-old-backup") ∧
    migrate_file staleBackupFS "cfg" = .ok fsAfterMigrate ∧
    lookup fsAfterMigrate "cfg.bak" = some (.obj legacyExample) := by
  refine ⟨rfl, ?_, rfl⟩
  norm_num +decide [migrate_file, os_rename, convert_to_1_0, bindE, pyIter, dictGet,
    lookup, pyNormalize, mapE, normalizeStep, pySum, pyDiv, pyNum?, pySubscript,
    insert_at_position, migratedBody, dictInsert, dictOfItems, pyListInsert, setValue,
    keysOf, legacyExample, migratedExample, staleBackupFS, fsAfterMigrate]

/-! ### Claim C3 -/

theorem filter_keys_dictInsert (d : Dict) (k : String) (v : JValue) (P : String → Bool)
    (h : k ∈ keysOf d ∨ P k = false) :
    (keysOf (dictInsert d k v)).filter P = (keysOf d).filter P := by
  rw [keysOf_dictInsert]
  rcases Decidable.em (k ∈ keysOf d) with hm | hm
  · rw [if_pos hm, List.append_nil]
  · rw [if_neg hm, List.filter_append]
    have hP : P k = false := h.resolve_left hm
    simp [List.filter_cons, hP]

theorem filter_keys_migratedBody (old_json : Dict) (iv ip ov op : List JValue)
    (sn : List ℚ) :
    (keysOf (migratedBody old_json iv ip ov op sn)).filter
        (fun k => k ∈ keysOf old_json) =
      keysOf old_json := by
  rw [migratedBody]
  rw [filter_keys_dictInsert]
  · rw [filter_keys_dictInsert]
    · rw [filter_keys_dictInsert]
      · exact List.filter_eq_self.mpr (fun a ha => decide_eq_true ha)
      · rcases Decidable.em ("inner_size_probs" ∈ keysOf old_json) with hm | hm
        · exact Or.inl hm
        · exact Or.inr (decide_eq_false hm)
    · rcases Decidable.em ("outer_margin_probs" ∈ keysOf old_json) with hm | hm
      · exact Or.inl (mem_keys_dictInsert_of_mem _ _ hm)
      · exact Or.inr (decide_eq_false hm)
  · rcases Decidable.em ("shift_weights" ∈ keysOf old_json) with hm | hm
    · exact Or.inl (mem_keys_dictInsert_of_mem _ _
        (mem_keys_dictInsert_of_mem _ _ hm))
    · exact Or.inr (decide_eq_false hm)

theorem keysOf_take (d : Dict) (n : Nat) : keysOf (d.take n) = (keysOf d).take n := by
  simp [keysOf]

theorem keysOf_drop (d : Dict) (n : Nat) : keysOf (d.drop n) = (keysOf d).drop n := by
  simp [keysOf]

/-- On a dict with distinct keys and no `version` key, `insert_at_position`
really is the splice of the new entry at the given position. -/
theorem insert_at_position_eq_splice {d : Dict} (value : JValue) (position : Nat)
    (hnd : (keysOf d).Nodup) (hver : "version" ∉ keysOf d) :
    insert_at_position d "version" value position =
      pyListInsert d position ("version", value) := by
  rw [insert_at_position]
  apply dictOfItems_of_nodup
  have hkeys : keysOf (pyListInsert d position ("version", value)) =
      (keysOf d).take position ++ "version" :: (keysOf d).drop position := by
    rw [pyListInsert, keysOf_append, keysOf_cons, keysOf_take, keysOf_drop]
  rw [hkeys]
  have hperm : ((keysOf d).take position ++ "version" :: (keysOf d).drop position).Perm
      ("version" :: keysOf d) := by
    have h1 : ((keysOf d).take position ++ "version" :: (keysOf d).drop position).Perm
        ("version" :: ((keysOf d).take position ++ (keysOf d).drop position)) :=
      List.perm_middle
    rw [List.take_append_drop] at h1
    exact h1
  exact hperm.symm.nodup (List.nodup_cons.mpr ⟨hver, hnd⟩)

/-- C3: for every legacy mapping (distinct keys, no `version` key yet) that
`convert_to_1_0` successfully migrates, the output binds `"version"` to the
string `"1.0"` at zero-based position 2 of its key order, and the input's
keys keep their relative order in the output. -/
theorem C3_version_third_key (old_json new_json : Dict)
    (hnd : (keysOf old_json).Nodup)
    (hver : "version" ∉ keysOf old_json)
    (hok : convert_to_1_0 old_json = .ok new_json) :
    lookup new_json "version" = some (.str "1.0") ∧
    (keysOf new_json)[2]? = some "version" ∧
    (keysOf new_json).filter (fun k => k ∈ keysOf old_json) = keysOf old_json := by
  obtain ⟨sws, sn, ii, iv, ip, oi, ov, op, h1, h2, h3, h4, h5, h6, h7, h8, hshape⟩ :=
    convert_to_1_0_ok hok
  subst hshape
  have hndm := nodup_keys_migratedBody hnd iv ip ov op sn
  have hverm := not_mem_keys_migratedBody_version iv ip ov op sn hver
  rw [insert_at_position_eq_splice _ 2 hndm hverm]
  have hkeys : keysOf (pyListInsert (migratedBody old_json iv ip ov op sn) 2
      ("version", .str "1.0")) =
      (keysOf (migratedBody old_json iv ip ov op sn)).take 2 ++
        "version" :: (keysOf (migratedBody old_json iv ip ov op sn)).drop 2 := by
    rw [pyListInsert, keysOf_append, keysOf_cons, keysOf_take, keysOf_drop]
  have hlenK : 2 ≤ (keysOf (migratedBody old_json iv ip ov op sn)).length := by
    rw [keysOf, List.length_map]
    exact two_le_length_migratedBody old_json iv ip ov op sn
  have hlentake : ((keysOf (migratedBody old_json iv ip ov op sn)).take 2).length = 2 := by
    rw [List.length_take]
    omega
  refine ⟨?_, ?_, ?_⟩
  · rw [pyListInsert]
    apply lookup_append_first_hit
    intro hmem
    rw [keysOf_take] at hmem
    exact hverm (List.take_subset _ _ hmem)
  · rw [hkeys, List.getElem?_append, if_neg (by omega), hlentake]
    simp
  · rw [hkeys, List.filter_append, List.filter_cons,
      if_neg (by simp [hver]), ← List.filter_append, List.take_append_drop,
      filter_keys_migratedBody]

/-- Witness for C3 at the spec's worked example: `version` is the third
key, bound to `"1.0"`, and the original keys keep their order. -/
theorem C3_witness :
    lookup migratedExample "version" = some (.str "1.0") ∧
    (keysOf migratedExample)[2]? = some "version" ∧
    (keysOf migratedExample).filter (fun k => k ∈ keysOf legacyExample) =
      keysOf legacyExample :=
  C3_version_third_key legacyExample migratedExample (by decide) (by decide)
    convert_legacyExample

/-! ### Claim C10 -/

theorem getElem_keysOf {d : Dict} {p : Nat} {k : String}
    (h : (keysOf d)[p]? = some k) : ∃ w, d[p]? = some (k, w) := by
  rw [keysOf, List.getElem?_map] at h
  rcases hd : d[p]? with _ | pair
  · rw [hd] at h
    simp at h
  · rw [hd] at h
    simp only [Option.map_some'] at h
    exact ⟨pair.2, by rw [← Option.some.inj h]⟩

theorem lookup_of_getElem_nodup {d : Dict} (hnd : (keysOf d).Nodup) :
    ∀ {p : Nat} {k : String} {w : JValue}, d[p]? = some (k, w) →
      lookup d k = some w := by
  induction d with
  | nil => intro p k w h; simp at h
  | cons q rest ih =>
    intro p k w h
    rw [keysOf_cons, List.nodup_cons] at hnd
    match p with
    | 0 =>
      rw [List.getElem?_cons_zero] at h
      obtain rfl : q = (k, w) := Option.some.inj h
      rw [lookup, if_pos rfl]
    | p + 1 =>
      rw [List.getElem?_cons_succ] at h
      have hkmem : k ∈ keysOf rest := by
        have hmem : (k, w) ∈ rest := by
          obtain ⟨hlt, hget⟩ := List.getElem?_eq_some.mp h
          exact hget ▸ List.getElem_mem hlt
        exact List.mem_map_of_mem Prod.fst hmem
      have hq : q.1 ≠ k := fun hc => hnd.1 (hc ▸ hkmem)
      rw [lookup, if_neg hq]
      exact ih hnd.2 h

theorem eq_take_cons_drop {α : Type} {l : List α} {i : Nat} {a : α}
    (h : l[i]? = some a) : l = l.take i ++ a :: l.drop (i + 1) := by
  obtain ⟨hlt, hget⟩ := List.getElem?_eq_some.mp h
  calc l = l.take i ++ l.drop i := (List.take_append_drop i l).symm
    _ = l.take i ++ a :: l.drop (i + 1) := by
      rw [List.drop_eq_getElem_cons hlt, hget]

/-- Python `dict(items)` on an item list with exactly one duplicated key `k`: the
key keeps its first-occurrence position and takes the later value. -/
theorem dictOfItems_one_dup (T D1 D2 : Dict) (k : String) (v1 v2 : JValue)
    (hnd : (keysOf T ++ k :: (keysOf D1 ++ keysOf D2)).Nodup) :
    dictOfItems (T ++ (k, v1) :: (D1 ++ (k, v2) :: D2)) =
      T ++ (k, v2) :: (D1 ++ D2) := by
  have hndT : (keysOf T).Nodup := hnd.of_append_left
  have hrest : (k :: (keysOf D1 ++ keysOf D2)).Nodup := hnd.of_append_right
  have hdisj : (keysOf T).Disjoint (k :: (keysOf D1 ++ keysOf D2)) :=
    List.disjoint_of_nodup_append hnd
  have hkT : k ∉ keysOf T := fun hm => hdisj hm (List.mem_cons_self _ _)
  have hkD : k ∉ keysOf D1 ++ keysOf D2 := (List.nodup_cons.mp hrest).1
  have hkD1 : k ∉ keysOf D1 := fun hm => hkD (List.mem_append_left _ hm)
  have hkD2 : k ∉ keysOf D2 := fun hm => hkD (List.mem_append_right _ hm)
  have hsub1 : ((keysOf T ++ [k]) ++ keysOf D1).Sublist
      (keysOf T ++ k :: (keysOf D1 ++ keysOf D2)) := by
    rw [List.append_assoc, List.singleton_append]
    exact ((List.sublist_append_left (keysOf D1) (keysOf D2)).cons₂ k).append_left
      (keysOf T)
  rw [dictOfItems, List.foldl_append]
  have hT : List.foldl (fun d p => dictInsert d p.1 p.2) [] T = T := by
    apply foldl_dictInsert_of_nodup
    rw [List.nil_append]
    exact hndT
  rw [hT, List.foldl_cons]
  have hstep1 : dictInsert T k v1 = T ++ [(k, v1)] := by
    rw [dictInsert, if_neg hkT]
  rw [hstep1, List.foldl_append]
  have hD1 : List.foldl (fun d p => dictInsert d p.1 p.2) (T ++ [(k, v1)]) D1 =
      (T ++ [(k, v1)]) ++ D1 := by
    apply foldl_dictInsert_of_nodup
    rw [keysOf_append, keysOf_append]
    show ((keysOf T ++ keysOf [(k, v1)]) ++ keysOf D1).Nodup
    have : keysOf [(k, v1)] = [k] := rfl
    rw [this]
    exact hsub1.nodup hnd
  rw [hD1, List.foldl_cons]
  have hmemk : k ∈ keysOf ((T ++ [(k, v1)]) ++ D1) := by
    rw [keysOf_append, keysOf_append]
    exact List.mem_append_left _ (List.mem_append_right _ (List.mem_singleton.mpr rfl))
  have hstep2 : dictInsert ((T ++ [(k, v1)]) ++ D1) k v2 = (T ++ [(k, v2)]) ++ D1 := by
    rw [dictInsert, if_pos hmemk, setValue_append, setValue_append,
      setValue_of_not_mem _ hkT, setValue_of_not_mem _ hkD1]
    have : setValue [(k, v1)] k v2 = [(k, v2)] := by
      simp [setValue]
    rw [this]
  rw [hstep2]
  have hD2 : List.foldl (fun d p => dictInsert d p.1 p.2) ((T ++ [(k, v2)]) ++ D1) D2 =
      ((T ++ [(k, v2)]) ++ D1) ++ D2 := by
    apply foldl_dictInsert_of_nodup
    rw [keysOf_append, keysOf_append, keysOf_append]
    show (((keysOf T ++ keysOf [(k, v2)]) ++ keysOf D1) ++ keysOf D2).Nodup
    have h1 : keysOf [(k, v2)] = [k] := rfl
    rw [h1, List.append_assoc, List.append_assoc, List.singleton_append]
    exact hnd
  rw [hD2, List.append_assoc, List.append_assoc, List.singleton_append]

/-- C10: if the input already binds `"version"` at zero-based key position
2 or later, the migrated mapping contains `"version"` exactly once, at
position 2, but bound to the *original* value rather than `"1.0"` (the
later duplicate wins when `dict(items)` rebuilds the mapping). -/
theorem C10_existing_version_survives (old_json new_json : Dict)
    (hnd : (keysOf old_json).Nodup)
    (p : Nat) (hp : 2 ≤ p)
    (hkp : (keysOf old_json)[p]? = some "version")
    (v : JValue) (hv : lookup old_json "version" = some v)
    (hok : convert_to_1_0 old_json = .ok new_json) :
    (keysOf new_json).count "version" = 1 ∧
    (keysOf new_json)[2]? = some "version" ∧
    lookup new_json "version" = some v := by
  obtain ⟨sws, sn, ii, iv, ip, oi, ov, op, h1, h2, h3, h4, h5, h6, h7, h8, hshape⟩ :=
    convert_to_1_0_ok hok
  subst hshape
  obtain ⟨w, hw⟩ := getElem_keysOf hkp
  have hweq : w = v := by
    have hlk := lookup_of_getElem_nodup hnd hw
    rw [hv] at hlk
    exact (Option.some.inj hlk).symm
  subst hweq
  have hndm := nodup_keys_migratedBody hnd iv ip ov op sn
  have hm : (migratedBody old_json iv ip ov op sn)[p]? = some ("version", w) := by
    rw [migratedBody]
    exact getElem?_dictInsert_ne (getElem?_dictInsert_ne
      (getElem?_dictInsert_ne hw _ (by decide)) _ (by decide)) _ (by decide)
  have hplt : p < (migratedBody old_json iv ip ov op sn).length :=
    (List.getElem?_eq_some.mp hm).1
  have h2le : 2 ≤ (migratedBody old_json iv ip ov op sn).length :=
    le_trans hp (le_of_lt hplt)
  have hdropP : ((migratedBody old_json iv ip ov op sn).drop 2)[p - 2]? =
      some ("version", w) := by
    rw [List.getElem?_drop]
    have harith : 2 + (p - 2) = p := by omega
    rw [harith]
    exact hm
  have hsplit : (migratedBody old_json iv ip ov op sn).drop 2 =
      ((migratedBody old_json iv ip ov op sn).drop 2).take (p - 2) ++
        ("version", w) ::
          ((migratedBody old_json iv ip ov op sn).drop 2).drop (p - 2 + 1) :=
    eq_take_cons_drop hdropP
  have hmeq : migratedBody old_json iv ip ov op sn =
      (migratedBody old_json iv ip ov op sn).take 2 ++
        (((migratedBody old_json iv ip ov op sn).drop 2).take (p - 2) ++
          ("version", w) ::
            ((migratedBody old_json iv ip ov op sn).drop 2).drop (p - 2 + 1)) := by
    conv_lhs => rw [← List.take_append_drop 2 (migratedBody old_json iv ip ov op sn),
      hsplit]
  have hndm2 : (keysOf ((migratedBody old_json iv ip ov op sn).take 2) ++
      (keysOf (((migratedBody old_json iv ip ov op sn).drop 2).take (p - 2)) ++
        "version" ::
          keysOf (((migratedBody old_json iv ip ov op sn).drop 2).drop (p - 2 + 1)))).Nodup := by
    have := hndm
    rw [hmeq, keysOf_append, keysOf_append, keysOf_cons] at this
    exact this
  have hndSide : (keysOf ((migratedBody old_json iv ip ov op sn).take 2) ++
      "version" ::
        (keysOf (((migratedBody old_json iv ip ov op sn).drop 2).take (p - 2)) ++
          keysOf (((migratedBody old_json iv ip ov op sn).drop 2).drop (p - 2 + 1)))).Nodup :=
    (List.Perm.append_left _ List.perm_middle).nodup hndm2
  have hfinal : insert_at_position (migratedBody old_json iv ip ov op sn)
      "version" (.str "1.0") 2 =
      (migratedBody old_json iv ip ov op sn).take 2 ++ ("version", w) ::
        (((migratedBody old_json iv ip ov op sn).drop 2).take (p - 2) ++
          ((migratedBody old_json iv ip ov op sn).drop 2).drop (p - 2 + 1)) := by
    rw [insert_at_position, pyListInsert]
    conv_lhs => rw [hsplit]
    exact dictOfItems_one_dup _ _ _ _ _ _ hndSide
  rw [hfinal]
  have hdisj2 := List.disjoint_of_nodup_append hndSide
  have hvA : "version" ∉ keysOf ((migratedBody old_json iv ip ov op sn).take 2) :=
    fun hmem => hdisj2 hmem (List.mem_cons_self _ _)
  have hvBC : "version" ∉
      keysOf (((migratedBody old_json iv ip ov op sn).drop 2).take (p - 2)) ++
        keysOf (((migratedBody old_json iv ip ov op sn).drop 2).drop (p - 2 + 1)) :=
    (List.nodup_cons.mp hndSide.of_append_right).1
  have hlenA : (keysOf ((migratedBody old_json iv ip ov op sn).take 2)).length = 2 := by
    rw [keysOf_take, List.length_take, keysOf, List.length_map]
    omega
  refine ⟨?_, ?_, ?_⟩
  · rw [keysOf_append, keysOf_cons, keysOf_append, List.count_append, List.count_cons,
      List.count_eq_zero.mpr hvA, List.count_eq_zero.mpr hvBC]
    simp
  · rw [keysOf_append, keysOf_cons, List.getElem?_append,
      if_neg (by rw [hlenA]; omega), hlenA]
    simp
  · exact lookup_append_first_hit _ _ hvA

/-- A legacy mapping that already carries a `version` key at position 2. -/
def versionedInput : Dict :=
  [("a", .num 1), ("b", .num 2), ("version", .num 7), ("c", .num 3)]

/-- Migrating `versionedInput`: the pre-existing `version` entry keeps its
position and its old value `7` wins over the freshly stamped `"1.0"`. -/
def versionedOutput : Dict :=
  [("a", .num 1), ("b", .num 2), ("version", .num 7), ("c", .num 3),
   ("inner_size_probs", .obj [("values", .arr []), ("probs", .arr [])]),
   ("outer_margin_probs", .obj [("values", .arr []), ("probs", .arr [])]),
   ("shift_weights", .obj [("values", .null), ("probs", .arr [])])]

theorem convert_versionedInput :
    convert_to_1_0 versionedInput = .ok versionedOutput := by
  norm_num +decide [convert_to_1_0, bindE, pyIter, dictGet, lookup, pyNormalize, mapE,
    normalizeStep, pySum, pyDiv, pyNum?, pySubscript, insert_at_position,
    migratedBody, dictInsert, dictOfItems, pyListInsert, setValue, keysOf,
    versionedInput, versionedOutput]

/-- Witness for C10 at a config with `version = 7` in key position 2. -/
theorem C10_witness :
    (keysOf versionedOutput).count "version" = 1 ∧
    (keysOf versionedOutput)[2]? = some "version" ∧
    lookup versionedOutput "version" = some (.num 7) :=
  C10_existing_version_survives versionedInput versionedOutput (by decide)
    2 (le_refl 2) rfl (.num 7) rfl convert_versionedInput

/-! ### Agreement of the heap model with the pure embedding -/

theorem heapGet_append_self (x : Heap) (d : Dict) : heapGet (x ++ [d]) x.length = d := by
  rw [heapGet, List.getD_eq_getElem?_getD, List.getElem?_append,
    if_neg (lt_irrefl _), Nat.sub_self]
  rfl

theorem heapGet_heapSet_self (x : Heap) (i : Nat) (d : Dict) (hlt : i < x.length) :
    heapGet (heapSet x i d) i = d := by
  rw [heapSet, heapGet, List.getD_eq_getElem?_getD, List.getElem?_set_eq_of_lt d hlt]
  rfl

theorem length_heapSet (x : Heap) (i : Nat) (d : Dict) :
    (heapSet x i d).length = x.length := by
  rw [heapSet, List.length_set]

/-- The heap-model run returns (a reference to) exactly the dict the pure
embedding computes. -/
theorem convert_to_1_0_heap_agrees (h : Heap) (r : Nat) :
    Except.map (fun p => heapGet p.1 p.2) (convert_to_1_0_heap h r) =
      convert_to_1_0 (heapGet h r) := by
  rw [convert_to_1_0_heap, convert_to_1_0]
  rcases e1 : pyIter (dictGet (heapGet h r) "shift_weights" (.arr [])) with e | sws
  · rfl
  simp only [bindE]
  rcases e2 : pyNormalize sws with e | sn
  · rfl
  simp only [bindE]
  rcases e3 : pyIter (dictGet (heapGet h r) "inner_size_probs" (.arr [])) with e | ii
  · rfl
  simp only [bindE]
  rcases e4 : mapE (fun item => pySubscript item 0) ii with e | iv
  · rfl
  simp only [bindE]
  rcases e5 : mapE (fun item => pySubscript item 1) ii with e | ip
  · rfl
  simp only [bindE]
  rcases e6 : pyIter (dictGet (heapGet h r) "outer_margin_probs" (.arr [])) with e | oi
  · rfl
  simp only [bindE]
  rcases e7 : mapE (fun item => pySubscript item 0) oi with e | ov
  · rfl
  simp only [bindE]
  rcases e8 : mapE (fun item => pySubscript item 1) oi with e | op
  · rfl
  simp only [bindE, Except.map]
  rw [heapGet_append_self]
  rw [heapGet_heapSet_self _ _ _ (by
    rw [length_heapSet, length_heapSet, List.length_append, List.length_singleton]
    omega)]
  rw [heapGet_heapSet_self _ _ _ (by
    rw [length_heapSet, List.length_append, List.length_singleton]
    omega)]
  rw [heapGet_heapSet_self _ _ _ (by
    rw [List.length_append, List.length_singleton]
    omega)]
  rw [heapGet_append_self]
  rfl
